import Mathlib

/-!
Verification of the mnist-lstm training pipeline.

A shallow embedding, in Lean 4, of the parts of the `mnist-lstm` repository
(`src/lstm_vision/functions.py`, `src/lstm_vision/train_options.py`,
`src/functions.py`, `src/run.py`) that the frozen claims are about:

* `check_args` — eager startup validation of the CLI configuration;
* `train_and_validate` — the per-epoch train/validate loop with running-minimum
  checkpoint selection;
* `print__batch_info` — the stride-based batch progress reporting;
* `load_checkpoint` — restoring model (and optionally optimizer) state;
* `produce_and_print_confusion_matrix` — confusion-matrix accumulation and
  row normalization;
* the deep-copy capture of checkpoints, modelled over an explicit heap so that
  aliasing versus copying is visible.

Python floats are modelled by `ℚ` (the claims under study are about control
flow, aggregation formulas and list lengths, not rounding); the float value
`inf` used to initialize the running minimum validation loss is modelled by
`none : Option ℚ`.  Machine-learning specifics (the LSTM forward pass, the
cross-entropy formula, the Adam update) are opaque parameters of the
embedding, exactly as the loop treats them: the loop only ever calls them.
-/

namespace MnistLstm

/-! ## Configuration and `check_args` (src/lstm_vision/functions.py, lines 20-50) -/

/-- The fields of `argparse.Namespace` that `check_args` inspects, with the
types `train_options.py` parses them at. -/
structure Args where
  compile_mode : Option String
  pin_memory : Bool
  num_workers : Int
  dropout_rate : ℚ
  train_split : ℚ
deriving Repr, DecidableEq

/-- The defaults of `TrainOptions` (src/lstm_vision/train_options.py):
`compile_mode=None`, `pin_memory=False` (store_true flag), `num_workers=0`,
`dropout_rate=0.0`, `train_split=5/6`. -/
def defaultArgs : Args where
  compile_mode := none
  pin_memory := false
  num_workers := 0
  dropout_rate := 0
  train_split := 5 / 6

/-- Embedding of `check_args`: the four assertions, in source order.  A failed
`assert` raises `AssertionError`, modelled as `Except.error` carrying the
message's fixed prefix. -/
def check_args (args : Args) : Except String Unit :=
  if args.compile_mode ∉
      ([none, some "default", some "reduce-overhead", some "max-autotune"] :
        List (Option String)) then
    Except.error "is not a valid compile mode"
  else if args.pin_memory ∧ ¬ args.num_workers > 0 then
    Except.error "With pinned memory, num_workers > 0 should be chosen"
  else if ¬ (0 < args.dropout_rate ∧ args.dropout_rate < 1) then
    Except.error "dropout_rate should be chosen between 0 and 1"
  else if ¬ (0 < args.train_split ∧ args.train_split < 1) then
    Except.error "train_split should be chosen between 0 and 1"
  else
    Except.ok ()

/-! ## `print__batch_info` (src/lstm_vision/functions.py, lines 373-417)

The function's only observable effect is printing one progress line (or
nothing).  We model the call by the `current_samples` figure the line would
carry: `some current_samples` when the line is printed, `none` when the body
is skipped.  The loader is represented by the three numbers the function reads
from it: `len(loader)` (number of batches), `loader.batch_size`, and
`len(loader.dataset)`. -/

/-- Model of `print__batch_info`: prints iff `batch_idx % frequency == 0`; inside that
branch, the final batch (`batch_idx == len(loader) - 1`) reports
`len(loader.dataset)` as its current-sample count, any other batch reports
`(batch_idx + 1) * loader.batch_size`. -/
def print__batch_info (batch_idx numBatches batchSize datasetSize : ℕ)
    (frequency : ℕ) : Option ℕ :=
  if batch_idx % frequency = 0 then
    if batch_idx = numBatches - 1 then
      some datasetSize
    else
      some ((batch_idx + 1) * batchSize)
  else
    none

/-! ## `load_checkpoint` (src/lstm_vision/functions.py, lines 419-434)

The checkpoint dictionary has the two fields written by `train_and_validate`.
`load_checkpoint` overwrites the model's state with `checkpoint["state_dict"]`
and, only when an optimizer is passed (the parameter defaults to `None`),
overwrites the optimizer's state with `checkpoint["optimizer"]`.  We model the
mutable model and optimizer states as the components of an explicit pair
threaded through the call; `optimizerPassed = false` is the `optimizer=None`
default. -/

/-- The checkpoint dictionary: keys `state_dict` and `optimizer`. -/
structure CheckpointDict (S O : Type) where
  state_dict : S
  optimizer : O
deriving Repr, DecidableEq

/-- Embedding of `load_checkpoint`: the model state becomes `checkpoint["state_dict"]`; the
optimizer state becomes `checkpoint["optimizer"]` if an optimizer was passed,
and is untouched otherwise. -/
def load_checkpoint {S O : Type} (checkpoint : CheckpointDict S O)
    (_modelState : S) (optState : O) (optimizerPassed : Bool) : S × O :=
  (checkpoint.state_dict,
   if optimizerPassed then checkpoint.optimizer else optState)

/-! ## Confusion matrix (src/lstm_vision/functions.py, lines 565-622)

The evaluated set is the list of `(trueClass, predictedClass)` pairs produced
by the forward passes; `produce_and_print_confusion_matrix` increments cell
`[t, p]` once per pair, then divides each row by the sum of its elements.
Entries of the normalized matrix are `Option ℚ`: `ℚ` has no NaN, so the result
of the source's floating-point division of a (necessarily all-zero) row by its
zero row sum is represented by `none`; a division by a nonzero row sum is the
ordinary rational. -/

/-- The accumulation loop `for t, p in zip(...): confusion_matrix[t, p] += 1`,
as a fold over the samples updating the matrix (a curried function). -/
def confusionAccum : List (ℕ × ℕ) → (ℕ → ℕ → ℕ) → (ℕ → ℕ → ℕ)
  | [], m => m
  | (t, p) :: rest, m =>
      confusionAccum rest (fun a b => if a = t ∧ b = p then m a b + 1 else m a b)

/-- The integer-valued confusion matrix after the full pass, starting from
`torch.zeros(num_classes, num_classes)`. -/
def confusionCounts (samples : List (ℕ × ℕ)) : ℕ → ℕ → ℕ :=
  confusionAccum samples (fun _ _ => 0)

/-- The `total_sums` accumulator for row `i`: the inner loop `for element in confusion_matrix[i]`
accumulating the row's `num_classes` entries. -/
def rowTotalSums (numClasses : ℕ) (m : ℕ → ℕ → ℕ) (i : ℕ) : ℕ :=
  ((List.range numClasses).map (m i)).sum

/-- Entry `[i, j]` after `confusion_matrix[i] /= total_sums`: `none` stands for
the NaN the source's float division produces when `total_sums` is zero. -/
def normalizedConfusion (numClasses : ℕ) (samples : List (ℕ × ℕ)) (i j : ℕ) :
    Option ℚ :=
  let m := confusionCounts samples
  let s := rowTotalSums numClasses m i
  if s = 0 then none else some ((m i j : ℚ) / (s : ℚ))

/-! ## Deep-copy checkpoint capture (src/lstm_vision/functions.py, lines 266-271)

`checkpoint = {"state_dict": deepcopy(model.state_dict()), "optimizer":
deepcopy(optimizer.state_dict())}`.  To make the difference between aliasing
and deep copying expressible, tensors live in an explicit heap: a list of
cells addressed by position.  A state dict is the list of addresses of its
tensors; `deepcopy` allocates fresh cells at the end of the heap holding the
current values; the optimizer's in-place updates of the live parameters are
writes to the old cells. -/

/-- Read the cell at address `a` (0 for a dangling address). -/
def readCell (h : List ℚ) (a : ℕ) : ℚ := h.getD a 0

/-- In-place write of value `v` to the cell at address `a`. -/
def setCell (h : List ℚ) (a : ℕ) (v : ℚ) : List ℚ := h.set a v

/-- A `deepcopy` of the tensors at `addrs`: fresh cells are allocated at the end
of the heap, holding copies of the current values; the returned address list
points at the fresh cells. -/
def deepcopyTensors (h : List ℚ) (addrs : List ℕ) : List ℚ × List ℕ :=
  (h ++ addrs.map (readCell h),
   (List.range addrs.length).map (fun k => h.length + k))

/-- A captured checkpoint: the addresses of the copied model state dict and of
the copied optimizer state dict. -/
structure HeapCheckpoint where
  state_dict : List ℕ
  optimizer : List ℕ
deriving Repr, DecidableEq

/-- Lines 268-271: build the checkpoint dictionary from deep copies of
`model.state_dict()` and `optimizer.state_dict()`. -/
def captureCheckpoint (h : List ℚ) (modelAddrs optAddrs : List ℕ) :
    List ℚ × HeapCheckpoint :=
  let hm := deepcopyTensors h modelAddrs
  let ho := deepcopyTensors hm.1 optAddrs
  (ho.1, ⟨hm.2, ho.2⟩)

/-- A sequence of in-place tensor writes (e.g. the optimizer steps of later
epochs), applied in order. -/
def applyMuts (h : List ℚ) (muts : List (ℕ × ℚ)) : List ℚ :=
  muts.foldl (fun hh mu => setCell hh mu.1 mu.2) h

/-! ## `train_and_validate` (src/lstm_vision/functions.py, lines 131-291)

The loop is parametric in everything the library provides and the loop merely
calls: `P` is the type of the model's parameters, `O` the optimizer's state,
`B` a batch.  One training step (`zero_grad`; forward; `cce_mean`;
`scaler.scale(loss).backward()`; `scaler.step(optimizer)`; `scaler.update()`)
is the opaque `trainStep`, returning the updated parameters and optimizer
state.  `sumLoss p b` is `cce_sum(output, labels).item()` for the output the
model with parameters `p` produces on batch `b` — in the training loop the
output is computed *before* `scaler.step`, so the pre-step parameters are the
ones that matter.  `correct p b` is `(max_indices == labels).sum().item()` for
the same output, and `batchSize b` is `output.shape[0]`.  The loaders are the
lists of batches they yield, together with `len(loader.dataset)`. -/

/-- The opaque machine-learning operations and the data of one run. -/
structure TrainEnv (P O B : Type) where
  trainStep : P → O → B → P × O
  sumLoss : P → B → ℚ
  correct : P → B → ℕ
  batchSize : B → ℕ
  trainBatches : List B
  valBatches : List B
  trainDatasetSize : ℕ
  valDatasetSize : ℕ

/-- The accumulators of the inner training loop of one epoch:
the live `model`/`optimizer` state and the variables
`trainingLoss_perEpoch`, `num_correct`, `num_samples`. -/
structure EpochAcc (P O : Type) where
  p : P
  o : O
  lossList : List ℚ
  numCorrect : ℕ
  numSamples : ℕ

/-- One iteration of `for batch_idx, (images, labels) in enumerate(train_loader)`:
the forward pass and optimizer step, then `trainingLoss_perEpoch.append(...)`
and the accuracy bookkeeping — both computed from the output of the forward
pass, i.e. from the parameters `acc.p` current *before* the step. -/
def runTrainBatch {P O B : Type} (env : TrainEnv P O B) (acc : EpochAcc P O)
    (b : B) : EpochAcc P O :=
  let po := env.trainStep acc.p acc.o b
  { p := po.1
    o := po.2
    lossList := acc.lossList ++ [env.sumLoss acc.p b]
    numCorrect := acc.numCorrect + env.correct acc.p b
    numSamples := acc.numSamples + env.batchSize b }

/-- The accumulators of the validation loop of one epoch:
`valLoss_perEpoch`, `val_num_correct`, `val_num_samples`. -/
structure ValAcc where
  lossList : List ℚ
  numCorrect : ℕ
  numSamples : ℕ

/-- One iteration of the validation loop (`torch.no_grad()`, forward pass
only): the parameters `pv` are those left by this epoch's training loop and
are not modified. -/
def runValBatch {P O B : Type} (env : TrainEnv P O B) (pv : P) (acc : ValAcc)
    (b : B) : ValAcc :=
  { lossList := acc.lossList ++ [env.sumLoss pv b]
    numCorrect := acc.numCorrect + env.correct pv b
    numSamples := acc.numSamples + env.batchSize b }

/-- The state carried from epoch to epoch: the live model/optimizer, the
running minimum `min_val_loss` (`none` models the initial `float("inf")`),
the `checkpoint` variable (`none` while still unassigned) and the four metric
lists. -/
structure LoopState (P O : Type) where
  p : P
  o : O
  minValLoss : Option ℚ
  checkpoint : Option (P × O)
  trainLosses : List ℚ
  valLosses : List ℚ
  trainAccs : List ℚ
  valAccs : List ℚ

/-- The comparison `x < min_val_loss` where `min_val_loss` may be the initial `float("inf")`
(modelled by `none`): every rational is below infinity. -/
def ltInf (x : ℚ) : Option ℚ → Bool
  | none => true
  | some m => decide (x < m)

/-- The body of `for epoch in range(num_epochs)`: the training loop, the
validation loop, the two `np.sum(...) / len(loader.dataset)` appends, the
`if val_losses[epoch] < min_val_loss` checkpoint capture (the deep copy is a
value snapshot here; its heap-level content is `captureCheckpoint`), and the
two accuracy appends. -/
def runEpoch {P O B : Type} (env : TrainEnv P O B) (s : LoopState P O) :
    LoopState P O :=
  let ta := env.trainBatches.foldl (runTrainBatch env)
    ⟨s.p, s.o, [], 0, 0⟩
  let va := env.valBatches.foldl (runValBatch env ta.p) ⟨[], 0, 0⟩
  let trainLoss := ta.lossList.sum / (env.trainDatasetSize : ℚ)
  let valLoss := va.lossList.sum / (env.valDatasetSize : ℚ)
  let mc : Option ℚ × Option (P × O) :=
    if ltInf valLoss s.minValLoss then (some valLoss, some (ta.p, ta.o))
    else (s.minValLoss, s.checkpoint)
  { p := ta.p
    o := ta.o
    minValLoss := mc.1
    checkpoint := mc.2
    trainLosses := s.trainLosses ++ [trainLoss]
    valLosses := s.valLosses ++ [valLoss]
    trainAccs := s.trainAccs ++ [(ta.numCorrect : ℚ) / (ta.numSamples : ℚ)]
    valAccs := s.valAccs ++ [(va.numCorrect : ℚ) / (va.numSamples : ℚ)] }

/-- The state before the first epoch: empty metric lists,
`min_val_loss = float("inf")`, `checkpoint` unassigned. -/
def initState {P O : Type} (p : P) (o : O) : LoopState P O :=
  ⟨p, o, none, none, [], [], [], []⟩

/-- The whole `for epoch in range(num_epochs)` loop. -/
def trainValLoop {P O B : Type} (env : TrainEnv P O B) (numEpochs : ℕ)
    (p : P) (o : O) : LoopState P O :=
  (List.range numEpochs).foldl (fun s _ => runEpoch env s) (initState p o)

/-- What `train_and_validate` returns (the wall-clock `start_time` marker is
outside the embedding). -/
structure TrainResult (P O : Type) where
  checkpoint : P × O
  train_losses : List ℚ
  val_losses : List ℚ
  train_accs : List ℚ
  val_accs : List ℚ

/-- Embedding of `train_and_validate`: run the loop, then execute the `return` statement.
If the `checkpoint` local was never assigned (no epoch improved on the
infinite sentinel — in particular when `num_epochs == 0`), the `return`
raises `UnboundLocalError`, modelled by `Except.error`. -/
def train_and_validate {P O B : Type} (env : TrainEnv P O B) (numEpochs : ℕ)
    (p : P) (o : O) : Except String (TrainResult P O) :=
  let s := trainValLoop env numEpochs p o
  match s.checkpoint with
  | none => Except.error
      "UnboundLocalError: local variable checkpoint referenced before assignment"
  | some ck =>
      Except.ok ⟨ck, s.trainLosses, s.valLosses, s.trainAccs, s.valAccs⟩

/-! ### Specification-side recharacterizations

Clean structural recursions, to be proved equal to what the accumulator-based
loop computes.  `poFold` is the evolution of the model/optimizer pair over a
list of training batches; `modelOptAfter env k p o` is the live pair after `k`
complete epochs (validation never changes it); `batchSumLosses` is the list of
per-batch `cce_sum` losses of one training epoch, each evaluated at the
parameters current when its batch was processed. -/

/-- Model/optimizer evolution over a list of training batches. -/
def poFold {P O B : Type} (env : TrainEnv P O B) (po : P × O) :
    List B → P × O
  | [] => po
  | b :: bs => poFold env (env.trainStep po.1 po.2 b) bs

/-- One epoch's effect on the model/optimizer pair. -/
def epochPO {P O B : Type} (env : TrainEnv P O B) (po : P × O) : P × O :=
  poFold env po env.trainBatches

/-- The live model/optimizer pair after `k` complete epochs. -/
def modelOptAfter {P O B : Type} (env : TrainEnv P O B) (k : ℕ) (p : P)
    (o : O) : P × O :=
  (epochPO env)^[k] (p, o)

/-- The per-batch sum-reduction losses of one training epoch, tracking the
parameter updates batch by batch. -/
def batchSumLosses {P O B : Type} (env : TrainEnv P O B) (p : P) (o : O) :
    List B → List ℚ
  | [] => []
  | b :: bs =>
      env.sumLoss p b ::
        batchSumLosses env (env.trainStep p o b).1 (env.trainStep p o b).2 bs

/-- The training loss recorded for epoch `i` (0-based). -/
def trainLossAt {P O B : Type} (env : TrainEnv P O B) (p : P) (o : O)
    (i : ℕ) : ℚ :=
  let po := modelOptAfter env i p o
  (batchSumLosses env po.1 po.2 env.trainBatches).sum /
    (env.trainDatasetSize : ℚ)

/-- The validation loss recorded for epoch `i` (0-based): the validation
forward passes use the parameters left by epoch `i`'s training loop. -/
def valLossAt {P O B : Type} (env : TrainEnv P O B) (p : P) (o : O)
    (i : ℕ) : ℚ :=
  let po := modelOptAfter env (i + 1) p o
  (env.valBatches.map (env.sumLoss po.1)).sum / (env.valDatasetSize : ℚ)

/-- The training loss one epoch records when it starts from the live pair
`(p, o)`. -/
def epochTrainLoss {P O B : Type} (env : TrainEnv P O B) (p : P) (o : O) : ℚ :=
  (batchSumLosses env p o env.trainBatches).sum / (env.trainDatasetSize : ℚ)

/-- The validation loss one epoch records when it starts from the live pair
`(p, o)`: the validation pass runs on the parameters left by this epoch's
training loop. -/
def epochValLoss {P O B : Type} (env : TrainEnv P O B) (p : P) (o : O) : ℚ :=
  (env.valBatches.map (env.sumLoss (epochPO env (p, o)).1)).sum /
    (env.valDatasetSize : ℚ)

/-! ### A concrete environment, used by the witnesses

Rational "parameters", "optimizer state" and "batches"; every epoch moves the
parameters up by the batch value, and the sum-loss grows with the parameters,
so the validation loss strictly increases from epoch to epoch and the best
checkpoint is the one captured after the *first* epoch, not the last. -/

/-- A small concrete run: two training batches, one validation batch. -/
def envEx : TrainEnv ℚ ℚ ℚ where
  trainStep := fun p o b => (p + b, o + 1)
  sumLoss := fun p b => p + b
  correct := fun _ _ => 1
  batchSize := fun _ => 1
  trainBatches := [1, 2]
  valBatches := [1]
  trainDatasetSize := 2
  valDatasetSize := 1

/-! ## Helper lemmas: the accumulator folds versus the clean recursions -/

theorem foldlTrain_lossList {P O B : Type} (env : TrainEnv P O B)
    (bs : List B) (acc : EpochAcc P O) :
    (bs.foldl (runTrainBatch env) acc).lossList =
      acc.lossList ++ batchSumLosses env acc.p acc.o bs := by
  induction bs generalizing acc with
  | nil => simp [batchSumLosses]
  | cons b bs ih =>
      simp only [List.foldl_cons, batchSumLosses]
      rw [ih]
      simp [runTrainBatch]

theorem foldlTrain_po {P O B : Type} (env : TrainEnv P O B)
    (bs : List B) (acc : EpochAcc P O) :
    ((bs.foldl (runTrainBatch env) acc).p,
      (bs.foldl (runTrainBatch env) acc).o) =
      poFold env (acc.p, acc.o) bs := by
  induction bs generalizing acc with
  | nil => simp [poFold]
  | cons b bs ih =>
      simp only [List.foldl_cons, poFold]
      rw [ih]
      simp [runTrainBatch]

theorem foldlVal_lossList {P O B : Type} (env : TrainEnv P O B) (pv : P)
    (bs : List B) (acc : ValAcc) :
    (bs.foldl (runValBatch env pv) acc).lossList =
      acc.lossList ++ bs.map (env.sumLoss pv) := by
  induction bs generalizing acc with
  | nil => simp
  | cons b bs ih =>
      simp only [List.foldl_cons, List.map_cons]
      rw [ih]
      simp [runValBatch]

theorem trainValLoop_succ {P O B : Type} (env : TrainEnv P O B) (N : ℕ)
    (p : P) (o : O) :
    trainValLoop env (N + 1) p o = runEpoch env (trainValLoop env N p o) := by
  unfold trainValLoop
  rw [List.range_succ, List.foldl_append]
  rfl

/-- The effect of one epoch on every field of the loop state, expressed with
the specification-side functions. -/
theorem runEpoch_fields {P O B : Type} (env : TrainEnv P O B)
    (s : LoopState P O) :
    (runEpoch env s).p = (epochPO env (s.p, s.o)).1 ∧
    (runEpoch env s).o = (epochPO env (s.p, s.o)).2 ∧
    (runEpoch env s).trainLosses =
      s.trainLosses ++ [epochTrainLoss env s.p s.o] ∧
    (runEpoch env s).valLosses = s.valLosses ++ [epochValLoss env s.p s.o] ∧
    (runEpoch env s).trainAccs.length = s.trainAccs.length + 1 ∧
    (runEpoch env s).valAccs.length = s.valAccs.length + 1 ∧
    (ltInf (epochValLoss env s.p s.o) s.minValLoss = true →
      (runEpoch env s).minValLoss = some (epochValLoss env s.p s.o) ∧
      (runEpoch env s).checkpoint = some (epochPO env (s.p, s.o))) ∧
    (ltInf (epochValLoss env s.p s.o) s.minValLoss = false →
      (runEpoch env s).minValLoss = s.minValLoss ∧
      (runEpoch env s).checkpoint = s.checkpoint) := by
  have hpo := foldlTrain_po env env.trainBatches
    (⟨s.p, s.o, [], 0, 0⟩ : EpochAcc P O)
  have hp : (env.trainBatches.foldl (runTrainBatch env)
      (⟨s.p, s.o, [], 0, 0⟩ : EpochAcc P O)).p = (epochPO env (s.p, s.o)).1 :=
    congrArg Prod.fst hpo
  have ho : (env.trainBatches.foldl (runTrainBatch env)
      (⟨s.p, s.o, [], 0, 0⟩ : EpochAcc P O)).o = (epochPO env (s.p, s.o)).2 :=
    congrArg Prod.snd hpo
  have htl := foldlTrain_lossList env env.trainBatches
    (⟨s.p, s.o, [], 0, 0⟩ : EpochAcc P O)
  have hvl := foldlVal_lossList env ((epochPO env (s.p, s.o)).1)
    env.valBatches (⟨[], 0, 0⟩ : ValAcc)
  unfold runEpoch
  simp only [hp, ho, htl, hvl, List.nil_append]
  constructor
  · trivial
  constructor
  · trivial
  constructor
  · simp [epochTrainLoss]
  constructor
  · simp [epochValLoss]
  constructor
  · simp
  constructor
  · simp
  constructor
  · intro hlt
    simp only [epochValLoss] at hlt
    simp [hlt, epochValLoss]
  · intro hlt
    simp only [epochValLoss] at hlt
    simp [hlt, epochValLoss]

theorem trainValLoop_po {P O B : Type} (env : TrainEnv P O B) (N : ℕ)
    (p : P) (o : O) :
    ((trainValLoop env N p o).p, (trainValLoop env N p o).o) =
      modelOptAfter env N p o := by
  induction N with
  | zero => simp [trainValLoop, initState, modelOptAfter]
  | succ N ih =>
      have hstep : modelOptAfter env (N + 1) p o =
          epochPO env (modelOptAfter env N p o) := by
        simp [modelOptAfter, Function.iterate_succ_apply']
      rw [trainValLoop_succ, hstep, ← ih]
      have h := runEpoch_fields env (trainValLoop env N p o)
      rw [h.1, h.2.1]

theorem epochValLoss_eq {P O B : Type} (env : TrainEnv P O B) (N : ℕ)
    (p : P) (o : O) :
    epochValLoss env (trainValLoop env N p o).p (trainValLoop env N p o).o =
      valLossAt env p o N := by
  have h1 : modelOptAfter env (N + 1) p o =
      epochPO env ((trainValLoop env N p o).p, (trainValLoop env N p o).o) := by
    rw [trainValLoop_po]
    simp [modelOptAfter, Function.iterate_succ_apply']
  simp [epochValLoss, valLossAt, h1]

theorem epochTrainLoss_eq {P O B : Type} (env : TrainEnv P O B) (N : ℕ)
    (p : P) (o : O) :
    epochTrainLoss env (trainValLoop env N p o).p (trainValLoop env N p o).o =
      trainLossAt env p o N := by
  have hpo := trainValLoop_po env N p o
  have h1 : (trainValLoop env N p o).p = (modelOptAfter env N p o).1 :=
    congrArg Prod.fst hpo
  have h2 : (trainValLoop env N p o).o = (modelOptAfter env N p o).2 :=
    congrArg Prod.snd hpo
  simp [epochTrainLoss, trainLossAt, h1, h2]

theorem trainValLoop_trainLosses {P O B : Type} (env : TrainEnv P O B)
    (N : ℕ) (p : P) (o : O) :
    (trainValLoop env N p o).trainLosses =
      (List.range N).map (trainLossAt env p o) := by
  induction N with
  | zero => simp [trainValLoop, initState]
  | succ N ih =>
      rw [trainValLoop_succ, List.range_succ, List.map_append,
        (runEpoch_fields env (trainValLoop env N p o)).2.2.1, ih,
        epochTrainLoss_eq]
      simp

theorem trainValLoop_valLosses {P O B : Type} (env : TrainEnv P O B)
    (N : ℕ) (p : P) (o : O) :
    (trainValLoop env N p o).valLosses =
      (List.range N).map (valLossAt env p o) := by
  induction N with
  | zero => simp [trainValLoop, initState]
  | succ N ih =>
      rw [trainValLoop_succ, List.range_succ, List.map_append,
        (runEpoch_fields env (trainValLoop env N p o)).2.2.2.1, ih,
        epochValLoss_eq]
      simp

theorem trainValLoop_accLens {P O B : Type} (env : TrainEnv P O B)
    (N : ℕ) (p : P) (o : O) :
    (trainValLoop env N p o).trainAccs.length = N ∧
      (trainValLoop env N p o).valAccs.length = N := by
  induction N with
  | zero => simp [trainValLoop, initState]
  | succ N ih =>
      have h := runEpoch_fields env (trainValLoop env N p o)
      rw [trainValLoop_succ]
      exact ⟨by rw [h.2.2.2.2.1, ih.1], by rw [h.2.2.2.2.2.1, ih.2]⟩

/-- The running minimum starts as the infinite sentinel and the `checkpoint`
variable starts unassigned. -/
theorem trainValLoop_init_sentinel {P O B : Type} (env : TrainEnv P O B)
    (p : P) (o : O) :
    (trainValLoop env 0 p o).minValLoss = none ∧
      (trainValLoop env 0 p o).checkpoint = none := by
  simp [trainValLoop, initState]

/-- The best-checkpoint invariant: after `N ≥ 1` epochs the `checkpoint`
variable holds the snapshot of the live model/optimizer pair taken at the end
of the training pass of the earliest epoch whose validation loss achieves the
minimum, and `min_val_loss` holds that minimum. -/
theorem trainValLoop_best {P O B : Type} (env : TrainEnv P O B)
    (p : P) (o : O) :
    ∀ N, 1 ≤ N → ∃ i, i < N ∧
      (trainValLoop env N p o).checkpoint =
        some (modelOptAfter env (i + 1) p o) ∧
      (trainValLoop env N p o).minValLoss = some (valLossAt env p o i) ∧
      (∀ j, j < N → valLossAt env p o i ≤ valLossAt env p o j) ∧
      (∀ j, j < i → valLossAt env p o i < valLossAt env p o j) := by
  intro N
  induction N with
  | zero => intro h; exact absurd h (by omega)
  | succ N ih =>
      intro _
      have hfields := runEpoch_fields env (trainValLoop env N p o)
      have hvaleq := epochValLoss_eq env N p o
      have hpo1 : epochPO env
          ((trainValLoop env N p o).p, (trainValLoop env N p o).o) =
          modelOptAfter env (N + 1) p o := by
        rw [trainValLoop_po]
        simp [modelOptAfter, Function.iterate_succ_apply']
      rcases Nat.eq_zero_or_pos N with hN | hN
      · subst hN
        have hmin := (trainValLoop_init_sentinel env p o).1
        have hlt : ltInf
            (epochValLoss env (trainValLoop env 0 p o).p
              (trainValLoop env 0 p o).o)
            (trainValLoop env 0 p o).minValLoss = true := by
          rw [hmin]; rfl
        obtain ⟨hminval, hck⟩ := hfields.2.2.2.2.2.2.1 hlt
        refine ⟨0, by omega, ?_, ?_, ?_, ?_⟩
        · rw [trainValLoop_succ, hck, hpo1]
        · rw [trainValLoop_succ, hminval, hvaleq]
        · intro j hj
          have : j = 0 := by omega
          subst this
          exact le_refl _
        · intro j hj
          exact absurd hj (by omega)
      · obtain ⟨i, hiN, hck, hmin, hle, hstrict⟩ := ih hN
        by_cases hc : valLossAt env p o N < valLossAt env p o i
        · have hlt : ltInf
              (epochValLoss env (trainValLoop env N p o).p
                (trainValLoop env N p o).o)
              (trainValLoop env N p o).minValLoss = true := by
            rw [hmin, hvaleq]
            simp [ltInf, hc]
          obtain ⟨hminval, hck'⟩ := hfields.2.2.2.2.2.2.1 hlt
          refine ⟨N, by omega, ?_, ?_, ?_, ?_⟩
          · rw [trainValLoop_succ, hck', hpo1]
          · rw [trainValLoop_succ, hminval, hvaleq]
          · intro j hj
            rcases Nat.lt_succ_iff_lt_or_eq.mp hj with h | h
            · exact le_of_lt (lt_of_lt_of_le hc (hle j h))
            · subst h; exact le_refl _
          · intro j hj
            exact lt_of_lt_of_le hc (hle j hj)
        · have hlt : ltInf
              (epochValLoss env (trainValLoop env N p o).p
                (trainValLoop env N p o).o)
              (trainValLoop env N p o).minValLoss = false := by
            rw [hmin, hvaleq]
            simp [ltInf, hc]
          obtain ⟨hminval, hck'⟩ := hfields.2.2.2.2.2.2.2 hlt
          refine ⟨i, by omega, ?_, ?_, ?_, ?_⟩
          · rw [trainValLoop_succ, hck', hck]
          · rw [trainValLoop_succ, hminval, hmin]
          · intro j hj
            rcases Nat.lt_succ_iff_lt_or_eq.mp hj with h | h
            · exact hle j h
            · subst h; exact not_lt.mp hc
          · exact hstrict

theorem getD_range_map {α : Type} (f : ℕ → α) (N j : ℕ) (d : α)
    (hj : j < N) : ((List.range N).map f).getD j d = f j := by
  have hlen : j < ((List.range N).map f).length := by simpa using hj
  rw [List.getD_eq_getElem _ d hlen]
  simp

/-- When the `checkpoint` local was assigned, the `return` statement of
`train_and_validate` packages it with the four metric lists. -/
theorem train_and_validate_ok {P O B : Type} (env : TrainEnv P O B)
    (N : ℕ) (p : P) (o : O) (ck : P × O)
    (hck : (trainValLoop env N p o).checkpoint = some ck) :
    train_and_validate env N p o = Except.ok
      ⟨ck, (trainValLoop env N p o).trainLosses,
        (trainValLoop env N p o).valLosses,
        (trainValLoop env N p o).trainAccs,
        (trainValLoop env N p o).valAccs⟩ := by
  simp [train_and_validate, hck]

/-! ## Claim theorems -/

/-- C1: for every run of `train_and_validate` with `num_epochs ≥ 1`, the
best-checkpoint tracker — a running minimum initialized to the infinite
sentinel (`trainValLoop_init_sentinel`), updated exactly when an epoch's
validation loss is strictly below it — returns the snapshot of the live
model/optimizer pair taken at the earliest arg-min epoch `i` (not necessarily
the final epoch): its captured validation loss, held in `min_val_loss`, is
`≤` the validation loss of every epoch, and strictly below that of every
earlier epoch. -/
theorem best_checkpoint_argmin {P O B : Type} (env : TrainEnv P O B)
    (numEpochs : ℕ) (p : P) (o : O) (h : 1 ≤ numEpochs) :
    ∃ i r, i < numEpochs ∧
      train_and_validate env numEpochs p o = Except.ok r ∧
      r.checkpoint = modelOptAfter env (i + 1) p o ∧
      (trainValLoop env numEpochs p o).minValLoss =
        some (r.val_losses.getD i 0) ∧
      (∀ j, j < numEpochs → r.val_losses.getD i 0 ≤ r.val_losses.getD j 0) ∧
      (∀ j, j < i → r.val_losses.getD i 0 < r.val_losses.getD j 0) := by
  obtain ⟨i, hiN, hck, hmin, hle, hstrict⟩ :=
    trainValLoop_best env p o numEpochs h
  have hv := trainValLoop_valLosses env numEpochs p o
  have hgetD : ∀ j, j < numEpochs →
      (trainValLoop env numEpochs p o).valLosses.getD j 0 =
        valLossAt env p o j := by
    intro j hj
    rw [hv, getD_range_map _ _ _ _ hj]
  refine ⟨i, _, hiN, train_and_validate_ok env numEpochs p o _ hck, rfl,
    ?_, ?_, ?_⟩
  · rw [hmin]
    exact congrArg some (hgetD i hiN).symm
  · intro j hj
    rw [hgetD i hiN, hgetD j hj]
    exact hle j hj
  · intro j hj
    rw [hgetD i hiN, hgetD j (by omega)]
    exact hstrict j hj

/-- C1 witness: a concrete two-epoch run of `envEx`. -/
theorem best_checkpoint_argmin_witness :
    (1 ≤ 2) ∧ ∃ i r, i < 2 ∧
      train_and_validate envEx 2 0 0 = Except.ok r ∧
      r.checkpoint = modelOptAfter envEx (i + 1) 0 0 ∧
      (trainValLoop envEx 2 0 0).minValLoss =
        some (r.val_losses.getD i 0) ∧
      (∀ j, j < 2 → r.val_losses.getD i 0 ≤ r.val_losses.getD j 0) ∧
      (∀ j, j < i → r.val_losses.getD i 0 < r.val_losses.getD j 0) :=
  ⟨by decide, best_checkpoint_argmin envEx 2 0 0 (by decide)⟩

/-- C2: for every epoch count `N ≥ 1`, `train_and_validate` returns four
per-epoch metric sequences each of length exactly `N`, and each epoch of the
loop appends exactly one entry to each of the four. -/
theorem metric_sequences_length {P O B : Type} (env : TrainEnv P O B)
    (numEpochs : ℕ) (p : P) (o : O) (h : 1 ≤ numEpochs) :
    (∃ r, train_and_validate env numEpochs p o = Except.ok r ∧
      r.train_losses.length = numEpochs ∧
      r.val_losses.length = numEpochs ∧
      r.train_accs.length = numEpochs ∧
      r.val_accs.length = numEpochs) ∧
    ∀ s : LoopState P O,
      (runEpoch env s).trainLosses.length = s.trainLosses.length + 1 ∧
      (runEpoch env s).valLosses.length = s.valLosses.length + 1 ∧
      (runEpoch env s).trainAccs.length = s.trainAccs.length + 1 ∧
      (runEpoch env s).valAccs.length = s.valAccs.length + 1 := by
  constructor
  · obtain ⟨i, hiN, hck, -⟩ := trainValLoop_best env p o numEpochs h
    refine ⟨_, train_and_validate_ok env numEpochs p o _ hck, ?_, ?_, ?_, ?_⟩
    · rw [trainValLoop_trainLosses]; simp
    · rw [trainValLoop_valLosses]; simp
    · exact (trainValLoop_accLens env numEpochs p o).1
    · exact (trainValLoop_accLens env numEpochs p o).2
  · intro s
    have hf := runEpoch_fields env s
    refine ⟨?_, ?_, hf.2.2.2.2.1, hf.2.2.2.2.2.1⟩
    · rw [hf.2.2.1]; simp
    · rw [hf.2.2.2.1]; simp

/-- C2 witness: the concrete two-epoch run of `envEx`. -/
theorem metric_sequences_length_witness :
    (1 ≤ 2) ∧
    ((∃ r, train_and_validate envEx 2 0 0 = Except.ok r ∧
      r.train_losses.length = 2 ∧
      r.val_losses.length = 2 ∧
      r.train_accs.length = 2 ∧
      r.val_accs.length = 2) ∧
    ∀ s : LoopState ℚ ℚ,
      (runEpoch envEx s).trainLosses.length = s.trainLosses.length + 1 ∧
      (runEpoch envEx s).valLosses.length = s.valLosses.length + 1 ∧
      (runEpoch envEx s).trainAccs.length = s.trainAccs.length + 1 ∧
      (runEpoch envEx s).valAccs.length = s.valAccs.length + 1) :=
  ⟨by decide, metric_sequences_length envEx 2 0 0 (by decide)⟩

/-- C3: the training loss recorded for epoch `e` is the sum, over that
epoch's training batches, of the sum-reduction cross-entropy loss of each
batch (each evaluated at the parameters current when its batch was processed),
divided by the total number of samples of the training dataset; the recorded
validation loss is the analogous sum over the validation loader divided by the
validation dataset size. -/
theorem epoch_loss_aggregation {P O B : Type} (env : TrainEnv P O B)
    (numEpochs : ℕ) (p : P) (o : O) (e : ℕ) (he : e < numEpochs) :
    ∃ r, train_and_validate env numEpochs p o = Except.ok r ∧
      r.train_losses.getD e 0 =
        (batchSumLosses env (modelOptAfter env e p o).1
            (modelOptAfter env e p o).2 env.trainBatches).sum /
          (env.trainDatasetSize : ℚ) ∧
      r.val_losses.getD e 0 =
        (env.valBatches.map
            (env.sumLoss (modelOptAfter env (e + 1) p o).1)).sum /
          (env.valDatasetSize : ℚ) := by
  obtain ⟨i, hiN, hck, -⟩ := trainValLoop_best env p o numEpochs (by omega)
  refine ⟨_, train_and_validate_ok env numEpochs p o _ hck, ?_, ?_⟩
  · rw [trainValLoop_trainLosses, getD_range_map _ _ _ _ he]
    rfl
  · rw [trainValLoop_valLosses, getD_range_map _ _ _ _ he]
    rfl

/-- C3 witness: epoch 1 of the concrete two-epoch run of `envEx`. -/
theorem epoch_loss_aggregation_witness :
    (1 < 2) ∧ ∃ r, train_and_validate envEx 2 0 0 = Except.ok r ∧
      r.train_losses.getD 1 0 =
        (batchSumLosses envEx (modelOptAfter envEx 1 0 0).1
            (modelOptAfter envEx 1 0 0).2 envEx.trainBatches).sum /
          (envEx.trainDatasetSize : ℚ) ∧
      r.val_losses.getD 1 0 =
        (envEx.valBatches.map
            (envEx.sumLoss (modelOptAfter envEx 2 0 0).1)).sum /
          (envEx.valDatasetSize : ℚ) :=
  ⟨by decide, epoch_loss_aggregation envEx 2 0 0 1 (by decide)⟩

/-- C4: with `num_epochs = 0` the loop leaves all four metric lists empty and
the `return` statement raises (`UnboundLocalError`) instead of returning an
undefined checkpoint; in general, whenever `min_val_loss` still holds the
infinite sentinel after the loop (no epoch ever improved on it),
`train_and_validate` raises rather than returning. -/
theorem zero_epochs_raises {P O B : Type} (env : TrainEnv P O B)
    (p : P) (o : O) :
    (trainValLoop env 0 p o).trainLosses = [] ∧
    (trainValLoop env 0 p o).valLosses = [] ∧
    (trainValLoop env 0 p o).trainAccs = [] ∧
    (trainValLoop env 0 p o).valAccs = [] ∧
    (∃ msg, train_and_validate env 0 p o = Except.error msg) ∧
    ∀ N, (trainValLoop env N p o).minValLoss = none →
      ∃ msg, train_and_validate env N p o = Except.error msg := by
  refine ⟨rfl, rfl, rfl, rfl, ⟨_, rfl⟩, ?_⟩
  intro N hmin
  rcases Nat.eq_zero_or_pos N with h0 | h1
  · subst h0
    exact ⟨_, rfl⟩
  · obtain ⟨i, -, -, hminsome, -⟩ := trainValLoop_best env p o N h1
    rw [hmin] at hminsome
    cases hminsome

/-! ### Heap lemmas for the deep-copy isolation claim -/

theorem applyMuts_cons (h : List ℚ) (mu : ℕ × ℚ) (muts : List (ℕ × ℚ)) :
    applyMuts h (mu :: muts) = applyMuts (setCell h mu.1 mu.2) muts := rfl

theorem applyMuts_length (muts : List (ℕ × ℚ)) :
    ∀ h : List ℚ, (applyMuts h muts).length = h.length := by
  induction muts with
  | nil => intro h; rfl
  | cons mu muts ih =>
      intro h
      rw [applyMuts_cons, ih, setCell, List.length_set]

/-- In-place writes below the original heap boundary commute with the cells
appended after it. -/
theorem applyMuts_append (muts : List (ℕ × ℚ)) :
    ∀ (h t : List ℚ), (∀ mu ∈ muts, mu.1 < h.length) →
      applyMuts (h ++ t) muts = applyMuts h muts ++ t := by
  induction muts with
  | nil => intro h t _; rfl
  | cons mu muts ih =>
      intro h t hlt
      have h1 : mu.1 < h.length := hlt mu (by simp)
      rw [applyMuts_cons, applyMuts_cons]
      have hset : setCell (h ++ t) mu.1 mu.2 = setCell h mu.1 mu.2 ++ t := by
        simp only [setCell]
        rw [List.set_append_left _ _ h1]
      rw [hset]
      apply ih
      intro mu' hmu'
      rw [setCell, List.length_set]
      exact hlt mu' (by simp [hmu'])

theorem readCell_append_left (h t : List ℚ) (a : ℕ) (ha : a < h.length) :
    readCell (h ++ t) a = readCell h a := by
  simp only [readCell]
  rw [List.getD_append _ _ _ _ ha]

theorem readCell_append_right (h t : List ℚ) (k : ℕ) :
    readCell (h ++ t) (h.length + k) = t.getD k 0 := by
  rw [readCell, List.getD_append_right _ _ _ _ (by omega)]
  congr 1
  omega

/-- Reading back, through freshly allocated addresses, the block of cells
appended right after `g` returns exactly that block. -/
theorem map_readCell_fresh_block (g vals rest : List ℚ) :
    ((List.range vals.length).map (fun k => g.length + k)).map
      (readCell (g ++ (vals ++ rest))) = vals := by
  apply List.ext_getElem
  · simp
  · intro i h1 h2
    simp only [List.getElem_map, List.getElem_range]
    rw [readCell_append_right]
    rw [List.getD_append _ _ _ _ h2]
    exact List.getD_eq_getElem _ _ h2

/-- C5 core: the checkpoint's copied cells live above the original heap
boundary, so any sequence of in-place writes to the live tensors (all below
the boundary) leaves the values read through the checkpoint's addresses
exactly as they were at capture time. -/
theorem checkpoint_deepcopy_isolation (h : List ℚ)
    (modelAddrs optAddrs : List ℕ) (muts : List (ℕ × ℚ))
    (_hmodel : ∀ a ∈ modelAddrs, a < h.length)
    (hopt : ∀ a ∈ optAddrs, a < h.length)
    (hmuts : ∀ mu ∈ muts, mu.1 < h.length) :
    ((captureCheckpoint h modelAddrs optAddrs).2.state_dict.map
        (readCell
          (applyMuts (captureCheckpoint h modelAddrs optAddrs).1 muts)) =
      modelAddrs.map (readCell h)) ∧
    ((captureCheckpoint h modelAddrs optAddrs).2.optimizer.map
        (readCell
          (applyMuts (captureCheckpoint h modelAddrs optAddrs).1 muts)) =
      optAddrs.map (readCell h)) := by
  have hocr : optAddrs.map (readCell (h ++ modelAddrs.map (readCell h))) =
      optAddrs.map (readCell h) := by
    apply List.map_congr_left
    intro a ha
    exact readCell_append_left h _ a (hopt a ha)
  have hcap1 : (captureCheckpoint h modelAddrs optAddrs).1 =
      h ++ (modelAddrs.map (readCell h) ++ optAddrs.map (readCell h)) := by
    simp [captureCheckpoint, deepcopyTensors, hocr, List.append_assoc]
  have hsd : (captureCheckpoint h modelAddrs optAddrs).2.state_dict =
      (List.range modelAddrs.length).map (fun k => h.length + k) := rfl
  have hod : (captureCheckpoint h modelAddrs optAddrs).2.optimizer =
      (List.range optAddrs.length).map
        (fun k => (h ++ modelAddrs.map (readCell h)).length + k) := rfl
  have hframe : applyMuts
      (h ++ (modelAddrs.map (readCell h) ++ optAddrs.map (readCell h)))
      muts =
      applyMuts h muts ++
        (modelAddrs.map (readCell h) ++ optAddrs.map (readCell h)) :=
    applyMuts_append muts h _ hmuts
  have hlen : (applyMuts h muts).length = h.length := applyMuts_length muts h
  constructor
  · rw [hsd, hcap1, hframe]
    have h1 : modelAddrs.length = (modelAddrs.map (readCell h)).length := by
      simp
    have h2 : h.length = (applyMuts h muts).length := hlen.symm
    rw [h1, h2]
    exact map_readCell_fresh_block (applyMuts h muts) _ _
  · rw [hod, hcap1, hframe]
    have h1 : optAddrs.length = (optAddrs.map (readCell h)).length := by simp
    have h2 : (h ++ modelAddrs.map (readCell h)).length =
        (applyMuts h muts ++ modelAddrs.map (readCell h)).length := by
      simp [hlen]
    rw [h1, h2, ← List.append_assoc]
    have h3 := map_readCell_fresh_block
      (applyMuts h muts ++ modelAddrs.map (readCell h))
      (optAddrs.map (readCell h)) []
    rwa [List.append_nil] at h3

/-- C5 witness: a three-cell heap, a one-tensor model at address 0 and a
one-tensor optimizer state at address 1; after the capture, cells 0 and 1 are
overwritten, yet the checkpoint still reads the captured values. -/
theorem checkpoint_deepcopy_isolation_witness :
    (∀ a ∈ [0], a < ([3, 4, 5] : List ℚ).length) ∧
    (∀ a ∈ [1], a < ([3, 4, 5] : List ℚ).length) ∧
    (∀ mu ∈ [((0 : ℕ), (99 : ℚ)), (1, 77)],
      mu.1 < ([3, 4, 5] : List ℚ).length) ∧
    (((captureCheckpoint [3, 4, 5] [0] [1]).2.state_dict.map
        (readCell (applyMuts (captureCheckpoint [3, 4, 5] [0] [1]).1
          [((0 : ℕ), (99 : ℚ)), (1, 77)])) =
      ([0] : List ℕ).map (readCell [3, 4, 5])) ∧
    ((captureCheckpoint [3, 4, 5] [0] [1]).2.optimizer.map
        (readCell (applyMuts (captureCheckpoint [3, 4, 5] [0] [1]).1
          [((0 : ℕ), (99 : ℚ)), (1, 77)])) =
      ([1] : List ℕ).map (readCell [3, 4, 5]))) :=
  ⟨by decide, by decide, by decide,
    checkpoint_deepcopy_isolation [3, 4, 5] [0] [1]
      [((0 : ℕ), (99 : ℚ)), (1, 77)] (by decide) (by decide) (by decide)⟩

/-- C4 witness: the concrete environment `envEx` with `num_epochs = 0`. -/
theorem zero_epochs_raises_witness :
    (trainValLoop envEx 0 0 0).trainLosses = [] ∧
    (trainValLoop envEx 0 0 0).valLosses = [] ∧
    (trainValLoop envEx 0 0 0).trainAccs = [] ∧
    (trainValLoop envEx 0 0 0).valAccs = [] ∧
    (∃ msg, train_and_validate envEx 0 0 0 = Except.error msg) ∧
    ∀ N, (trainValLoop envEx N 0 0).minValLoss = none →
      ∃ msg, train_and_validate envEx N 0 0 = Except.error msg :=
  zero_epochs_raises envEx 0 0

/-- C6 counterexample: with two batches and `frequency = 2`, the final batch
(index 1) is NOT reported — `print__batch_info` prints only on multiples of
the frequency; the final-batch special case is nested inside that stride
check, so the claim "the final batch of each loader is always reported" is
false. -/
theorem batch_info_final_not_always_reported :
    ¬ ∀ (batch_idx numBatches batchSize datasetSize frequency : ℕ),
        0 < frequency → batch_idx = numBatches - 1 →
        print__batch_info batch_idx numBatches batchSize datasetSize
          frequency ≠ none :=
  fun hclaim => hclaim 1 2 5 10 2 (by decide) rfl (by decide)

/-- C6 amended: `print__batch_info` prints exactly when the batch index is a
multiple of the configured frequency; among the printed batches, the final
batch of the loader reports the full dataset size as its current-sample
count, while every other printed batch reports the nominal stride-based count
`(batch_idx + 1) * batch_size`. -/
theorem batch_info_stride_only
    (batch_idx numBatches batchSize datasetSize frequency : ℕ)
    (_hf : 0 < frequency) :
    (print__batch_info batch_idx numBatches batchSize datasetSize frequency
        ≠ none ↔ batch_idx % frequency = 0) ∧
    (batch_idx % frequency = 0 → batch_idx = numBatches - 1 →
      print__batch_info batch_idx numBatches batchSize datasetSize frequency
        = some datasetSize) ∧
    (batch_idx % frequency = 0 → batch_idx ≠ numBatches - 1 →
      print__batch_info batch_idx numBatches batchSize datasetSize frequency
        = some ((batch_idx + 1) * batchSize)) := by
  unfold print__batch_info
  refine ⟨?_, ?_, ?_⟩
  · by_cases hm : batch_idx % frequency = 0
    · simp only [hm, ne_eq, if_true]
      constructor
      · intro _; trivial
      · intro _
        split <;> simp
    · simp [hm]
  · intro hm hfin
    subst hfin
    simp [hm]
  · intro hm hfin
    simp [hm, hfin]

/-- C6 amended witness: frequency 2 over four batches; batch 2 (not final)
reports the stride-based count, and batch 3 is the final batch: were it
printed it would report the dataset size, but with frequency 2 it is not. -/
theorem batch_info_stride_only_witness :
    (0 < (2 : ℕ)) ∧
    ((print__batch_info 2 4 5 18 2 ≠ none ↔ (2 : ℕ) % 2 = 0) ∧
    ((2 : ℕ) % 2 = 0 → (2 : ℕ) = 4 - 1 →
      print__batch_info 2 4 5 18 2 = some 18) ∧
    ((2 : ℕ) % 2 = 0 → (2 : ℕ) ≠ 4 - 1 →
      print__batch_info 2 4 5 18 2 = some ((2 + 1) * 5))) :=
  ⟨by decide, batch_info_stride_only 2 4 5 18 2 (by decide)⟩

/-! ### Confusion-matrix lemmas -/

theorem confusionAccum_count (samples : List (ℕ × ℕ)) :
    ∀ (m : ℕ → ℕ → ℕ) (t p : ℕ),
      confusionAccum samples m t p = m t p + samples.count (t, p) := by
  induction samples with
  | nil => intro m t p; simp [confusionAccum]
  | cons s rest ih =>
      intro m t p
      obtain ⟨a, b⟩ := s
      simp only [confusionAccum]
      rw [ih]
      by_cases hab : t = a ∧ p = b
      · obtain ⟨h1, h2⟩ := hab
        subst h1
        subst h2
        simp [List.count_cons]
        omega
      · have hne : ¬ ((t, p) = (a, b)) := by
          simp only [Prod.mk.injEq]
          exact hab
        simp [hab, List.count_cons, hne]

theorem confusionCounts_count (samples : List (ℕ × ℕ)) (t p : ℕ) :
    confusionCounts samples t p = samples.count (t, p) := by
  simp [confusionCounts, confusionAccum_count]

/-- C7: if every prediction is a valid class index and every class occurs at
least once as a true label, then each cell of the confusion matrix counts the
samples with that (true, predicted) pair, no normalized entry is the
undefined (NaN) marker, and every normalized row sums to 1. -/
theorem confusion_rows_sum_to_one (nc : ℕ) (samples : List (ℕ × ℕ))
    (hpred : ∀ s ∈ samples, s.2 < nc)
    (hcover : ∀ c, c < nc → ∃ s ∈ samples, s.1 = c) :
    (∀ t p, confusionCounts samples t p = samples.count (t, p)) ∧
    ∀ i, i < nc →
      (∀ j, j < nc → normalizedConfusion nc samples i j ≠ none) ∧
      ((List.range nc).map
        (fun j => (normalizedConfusion nc samples i j).getD 0)).sum = 1 := by
  refine ⟨confusionCounts_count samples, ?_⟩
  intro i hi
  obtain ⟨s, hs, hs1⟩ := hcover i hi
  have hposcount : 1 ≤ confusionCounts samples i s.2 := by
    rw [confusionCounts_count]
    have : (i, s.2) ∈ samples := by
      obtain ⟨a, b⟩ := s
      simp only at hs1
      subst hs1
      exact hs
    exact List.count_pos_iff.mpr this
  have hmem : confusionCounts samples i s.2 ∈
      (List.range nc).map (confusionCounts samples i) :=
    List.mem_map_of_mem _ (List.mem_range.mpr (hpred s hs))
  have hS : rowTotalSums nc (confusionCounts samples) i ≠ 0 := by
    intro h0
    have := List.single_le_sum
      (fun x _ => Nat.zero_le x) _ hmem
    rw [rowTotalSums] at h0
    omega
  have hSpos : ((rowTotalSums nc (confusionCounts samples) i : ℕ) : ℚ) ≠ 0 :=
    Nat.cast_ne_zero.mpr hS
  constructor
  · intro j _
    simp [normalizedConfusion, hS]
  · have hentry : ∀ j : ℕ,
        (normalizedConfusion nc samples i j).getD 0 =
          (confusionCounts samples i j : ℚ) *
            ((rowTotalSums nc (confusionCounts samples) i : ℕ) : ℚ)⁻¹ := by
      intro j
      simp [normalizedConfusion, hS, div_eq_mul_inv]
    calc ((List.range nc).map
          (fun j => (normalizedConfusion nc samples i j).getD 0)).sum
        = ((List.range nc).map
            (fun j => (confusionCounts samples i j : ℚ) *
              ((rowTotalSums nc (confusionCounts samples) i : ℕ) : ℚ)⁻¹)).sum
          := by
            congr 1
            exact List.map_congr_left (fun j _ => hentry j)
      _ = ((List.range nc).map
            (fun j => (confusionCounts samples i j : ℚ))).sum *
            ((rowTotalSums nc (confusionCounts samples) i : ℕ) : ℚ)⁻¹ := by
            rw [← List.sum_map_mul_right]
      _ = ((rowTotalSums nc (confusionCounts samples) i : ℕ) : ℚ) *
            ((rowTotalSums nc (confusionCounts samples) i : ℕ) : ℚ)⁻¹ := by
            congr 1
            rw [rowTotalSums, Nat.cast_list_sum, List.map_map]
            rfl
      _ = 1 := mul_inv_cancel₀ hSpos

/-- C7 witness: two classes, one sample of each true class. -/
theorem confusion_rows_sum_to_one_witness :
    (∀ s ∈ [((0 : ℕ), (0 : ℕ)), (1, 0)], s.2 < 2) ∧
    (∀ c, c < 2 → ∃ s ∈ [((0 : ℕ), (0 : ℕ)), (1, 0)], s.1 = c) ∧
    ((∀ t p, confusionCounts [((0 : ℕ), (0 : ℕ)), (1, 0)] t p =
        [((0 : ℕ), (0 : ℕ)), (1, 0)].count (t, p)) ∧
    ∀ i, i < 2 →
      (∀ j, j < 2 →
        normalizedConfusion 2 [((0 : ℕ), (0 : ℕ)), (1, 0)] i j ≠ none) ∧
      ((List.range 2).map
        (fun j => (normalizedConfusion 2 [((0 : ℕ), (0 : ℕ)), (1, 0)] i
          j).getD 0)).sum = 1) :=
  ⟨by decide, by decide,
    confusion_rows_sum_to_one 2 [((0 : ℕ), (0 : ℕ)), (1, 0)]
      (by decide) (by decide)⟩

/-- C8: the division-by-zero branch of the row normalization is reachable:
with two classes and the evaluated set consisting of the single sample
`(0, 0)`, class 1 never appears as a true label, its row sum is zero, and the
unguarded division still happens — the whole row comes out as the undefined
(NaN) marker instead of an error being raised; the other row is normalized
normally. -/
theorem confusion_zero_row_reachable :
    rowTotalSums 2 (confusionCounts [((0 : ℕ), (0 : ℕ))]) 1 = 0 ∧
    normalizedConfusion 2 [((0 : ℕ), (0 : ℕ))] 1 0 = none ∧
    normalizedConfusion 2 [((0 : ℕ), (0 : ℕ))] 1 1 = none ∧
    normalizedConfusion 2 [((0 : ℕ), (0 : ℕ))] 0 0 = some 1 ∧
    normalizedConfusion 2 [((0 : ℕ), (0 : ℕ))] 0 1 = some 0 := by
  refine ⟨by decide, ?_, ?_, ?_, ?_⟩ <;>
    norm_num [normalizedConfusion, rowTotalSums, confusionCounts,
      confusionAccum, List.range_succ]

/-- C9 (code bug): the shipped default configuration has
`dropout_rate = 0.0`, but `check_args` asserts `0 < dropout_rate < 1`
strictly, so the default is rejected at startup with the dropout assertion
error instead of passing validation. -/
theorem check_args_rejects_default_dropout :
    defaultArgs.dropout_rate = 0 ∧
    check_args defaultArgs =
      Except.error "dropout_rate should be chosen between 0 and 1" := by
  exact ⟨rfl, rfl⟩

/-- C10: `load_checkpoint` with the optimizer argument omitted (`None`) loads
the model's parameters from the checkpoint's `state_dict` field, leaves the
optimizer state unchanged, and never reads the checkpoint's `optimizer` field
(two checkpoints agreeing on `state_dict` give identical results); the
`optimizer` field is used exactly when an optimizer is passed. -/
theorem load_checkpoint_none_frame {S O : Type}
    (ck ck' : CheckpointDict S O) (modelState : S) (optState : O)
    (hsd : ck.state_dict = ck'.state_dict) :
    (load_checkpoint ck modelState optState false).1 = ck.state_dict ∧
    (load_checkpoint ck modelState optState false).2 = optState ∧
    load_checkpoint ck modelState optState false =
      load_checkpoint ck' modelState optState false ∧
    (load_checkpoint ck modelState optState true).2 = ck.optimizer := by
  refine ⟨rfl, rfl, ?_, rfl⟩
  simp [load_checkpoint, hsd]

/-- C10 witness: two checkpoints agreeing on `state_dict` but with different
`optimizer` fields. -/
theorem load_checkpoint_none_frame_witness :
    ((⟨1, 2⟩ : CheckpointDict ℕ ℕ).state_dict =
      (⟨1, 3⟩ : CheckpointDict ℕ ℕ).state_dict) ∧
    ((load_checkpoint (⟨1, 2⟩ : CheckpointDict ℕ ℕ) 5 7 false).1 =
      (⟨1, 2⟩ : CheckpointDict ℕ ℕ).state_dict ∧
    (load_checkpoint (⟨1, 2⟩ : CheckpointDict ℕ ℕ) 5 7 false).2 = 7 ∧
    load_checkpoint (⟨1, 2⟩ : CheckpointDict ℕ ℕ) 5 7 false =
      load_checkpoint (⟨1, 3⟩ : CheckpointDict ℕ ℕ) 5 7 false ∧
    (load_checkpoint (⟨1, 2⟩ : CheckpointDict ℕ ℕ) 5 7 true).2 =
      (⟨1, 2⟩ : CheckpointDict ℕ ℕ).optimizer) :=
  ⟨rfl, load_checkpoint_none_frame ⟨1, 2⟩ ⟨1, 3⟩ 5 7 rfl⟩

end MnistLstm

